import Mathlib

/-!
Verification of the world-orchestration layer of the llm-game-test repository.

The definitions below are shallow embeddings of the TypeScript source:
* `TerrainType`, `TileState`, `Tile`, `Position2D` — `shared/terrain.ts`;
* `WorldManager` (tile grid, optimistic locking, dirty set, harvest) —
  `server/Game/World/WeatherManager.ts` (the file hosting class `WorldManager`);
* `TimeManager` (tick clock, day phases, restore) — `server/Game/World/TimeManager.ts`;
* `getNextWeather` — `server/Game/World/utils.ts`;
* `AgentActionQueue` — the agent action-queue module;
* the per-coordinate interaction serializer — `InteractionManager.handleInteractionAsync`.

JavaScript numbers are modelled as `Int`/`Nat` where the code only ever holds
integers, and as `ℚ` where real-valued time arithmetic occurs.  Fields that the
modelled operations never read (display strings, metadata bags, callbacks) are
omitted; timestamps produced by `Date.now()`/`new Date()` are passed in as
explicit parameters.
-/

namespace Spec2Proof

/-- Terrain tile kinds (`shared/terrain.ts`, `TerrainType`). -/
inductive TerrainType
  | GRASS | DIRT | WATER | STONE | SAND | TREE | ROCK | FARMLAND | WALL | VOID
  deriving DecidableEq, Repr

/-- Dynamic tile state (`shared/terrain.ts`, `TileState`).  Optional fields of
the TS interface become `Option`; the open `[key: string]` extension is never
used by the world code and is omitted. -/
structure TileState where
  tilled : Option Bool := none
  crop : Option String := none
  growthStage : Option Int := none
  watered : Option Bool := none
  durability : Option Int := none
  lastInteractedAt : Option String := none
  deriving DecidableEq, Repr

/-- A terrain tile (`shared/terrain.ts`, `Tile`).  `metadata` is omitted: the
world code never reads it. -/
structure Tile where
  type : TerrainType
  state : Option TileState := none
  version : Option Nat := none
  deriving DecidableEq, Repr

/-- 2-D grid coordinate (`shared/terrain.ts`, `Position2D`). -/
structure Position2D where
  x : Int
  y : Int
  deriving DecidableEq, Repr

/-- Static per-type tile configuration (`TileConfig`); the display-only
`description`, `symbol` and `color` strings are omitted. -/
structure TileConfig where
  type : TerrainType
  walkable : Bool
  tillable : Bool
  harvestable : Bool
  transparent : Bool
  deriving DecidableEq, Repr

/-- The tile configuration table built by `WorldManager.initTileConfigs`. -/
def initTileConfigs : TerrainType → TileConfig
  | .GRASS => ⟨.GRASS, true, true, false, true⟩
  | .DIRT => ⟨.DIRT, true, true, false, true⟩
  | .WATER => ⟨.WATER, false, false, false, true⟩
  | .STONE => ⟨.STONE, true, false, false, true⟩
  | .SAND => ⟨.SAND, true, false, false, true⟩
  | .TREE => ⟨.TREE, false, false, true, false⟩
  | .ROCK => ⟨.ROCK, false, false, true, false⟩
  | .FARMLAND => ⟨.FARMLAND, true, false, false, true⟩
  | .WALL => ⟨.WALL, false, false, false, false⟩
  | .VOID => ⟨.VOID, false, false, false, true⟩

/-- The tile matrix of a world (`WorldMap`): `tiles[y][x]`. -/
structure WorldMap where
  width : Int
  height : Int
  tiles : List (List Tile)
  deriving DecidableEq, Repr

/-- The mutable state of a `WorldManager`: the map plus the dirty-coordinate
set.  The TS dirty set stores string keys of the shape `x,y`; the key encoding
is injective on coordinates, so a `Finset Position2D` is the same set. -/
structure WorldManager where
  worldMap : WorldMap
  dirtyTiles : Finset Position2D
  deriving DecidableEq

/-- JavaScript array indexing `l[i]`: `undefined` (here `none`) outside
`[0, length)`. -/
def listGet? {α : Type} (l : List α) (i : Int) : Option α :=
  if 0 ≤ i then l.get? i.toNat else none

/-- `WorldManager.isInBounds`. -/
def WorldManager.isInBounds (w : WorldManager) (pos : Position2D) : Bool :=
  decide (0 ≤ pos.x) && decide (pos.x < w.worldMap.width) &&
    decide (0 ≤ pos.y) && decide (pos.y < w.worldMap.height)

/-- `WorldManager.getTile`: out-of-bounds coordinates and holes in the matrix
yield the `VOID` sentinel tile. -/
def WorldManager.getTile (w : WorldManager) (pos : Position2D) : Tile :=
  if !(w.isInBounds pos) then { type := .VOID }
  else
    (((listGet? w.worldMap.tiles pos.y).bind fun row => listGet? row pos.x).getD
      { type := .VOID })

/-- `WorldManager.getTileVersion`: the stored version, `0` when absent. -/
def WorldManager.getTileVersion (w : WorldManager) (pos : Position2D) : Nat :=
  (w.getTile pos).version.getD 0

/-- `WorldManager.setTile`: the optimistic-concurrency entry point.  When
`expectedVersion` is supplied it must equal the stored version (absent read as
`0`); on acceptance the stored tile becomes `tile` with version
`currentVersion + 1` and the coordinate is marked dirty. -/
def WorldManager.setTile (w : WorldManager) (pos : Position2D) (tile : Tile)
    (expectedVersion : Option Nat) : Bool × WorldManager :=
  if !(w.isInBounds pos) then (false, w)
  else
    match listGet? w.worldMap.tiles pos.y with
    | none => (false, w)
    | some row =>
      let currentTile := listGet? row pos.x
      let currentVersion := (currentTile.bind fun t => t.version).getD 0
      let versionOk : Bool := match expectedVersion with
        | some ev => decide (currentVersion = ev)
        | none => true
      if !versionOk then (false, w)
      else
        let newTile : Tile := { tile with version := some (currentVersion + 1) }
        let row2 := row.set pos.x.toNat newTile
        let tiles2 := w.worldMap.tiles.set pos.y.toNat row2
        (true,
          { worldMap := { w.worldMap with tiles := tiles2 },
            dirtyTiles := insert pos w.dirtyTiles })

/-- A world map as produced by `generateDefaultWorld`: non-negative extents, a
full row per `y` and a full cell per `x` (JS index assignment on such a matrix
never grows a row, so `List.set` is an exact model). -/
def WorldManager.WellFormed (w : WorldManager) : Prop :=
  0 ≤ w.worldMap.width ∧ 0 ≤ w.worldMap.height ∧
    w.worldMap.tiles.length = w.worldMap.height.toNat ∧
    ∀ row ∈ w.worldMap.tiles, row.length = w.worldMap.width.toNat

instance (w : WorldManager) : Decidable w.WellFormed := by
  unfold WorldManager.WellFormed; infer_instance

/-- Concrete 1×1 world holding a `GRASS` tile at version 3 (witness input). -/
def exWorld3 : WorldManager :=
  ⟨⟨1, 1, [[{ type := .GRASS, version := some 3 }]]⟩, ∅⟩

/-- Concrete tile payloads used by witnesses. -/
def exTileA : Tile := { type := .DIRT }

def exTileB : Tile := { type := .SAND }

/-- `WorldManager.getTileConfig` composed with the config lookup used by the
predicates: the table is total over `TerrainType`. -/
def WorldManager.isHarvestable (w : WorldManager) (pos : Position2D) : Bool :=
  (initTileConfigs (w.getTile pos).type).harvestable

/-- `WorldManager.getDrops`: the drop table of a resource tile. -/
def getDrops : TerrainType → List String
  | .TREE => ["wood", "wood", "wood"]
  | .ROCK => ["stone", "stone", "stone", "stone", "stone"]
  | _ => []

/-- Result record of `WorldManager.harvest`. -/
structure HarvestResult where
  success : Bool
  complete : Bool
  drops : Option (List String) := none
  deriving DecidableEq, Repr

/-- `WorldManager.harvest`: version-checked durability countdown.  `now` is
the `new Date().toISOString()` timestamp written into `lastInteractedAt`. -/
def WorldManager.harvest (w : WorldManager) (pos : Position2D) (now : String) :
    HarvestResult × WorldManager :=
  if !(w.isHarvestable pos) then (⟨false, false, none⟩, w)
  else
    let tile := w.getTile pos
    let expectedVersion := tile.version.getD 0
    match tile.state with
    | none => (⟨false, false, none⟩, w)
    | some st =>
      match st.durability with
      | none => (⟨false, false, none⟩, w)
      | some durability =>
        let newDurability := durability - 1
        if newDurability ≤ 0 then
          let drops := getDrops tile.type
          let r := w.setTile pos { type := .GRASS } (some expectedVersion)
          if !r.1 then (⟨false, false, none⟩, w)
          else (⟨true, true, some drops⟩, r.2)
        else
          let newTile : Tile :=
            { type := tile.type,
              state := some { st with durability := some newDurability,
                                      lastInteractedAt := some now } }
          let r := w.setTile pos newTile (some expectedVersion)
          if !r.1 then (⟨false, false, none⟩, w)
          else (⟨true, false, none⟩, r.2)

/-- Concrete 1×1 world holding a `TREE` tile with durability 3 (witness
input for the harvest scenario). -/
def exTreeWorld : WorldManager :=
  ⟨⟨1, 1, [[{ type := .TREE, state := some { durability := some 3 } }]]⟩, ∅⟩

/-- The four day phases (`TimeOfDay` enum of `shared` types). -/
inductive TimeOfDay
  | Dawn | Day | Dusk | Night
  deriving DecidableEq, Repr

/-- `ticksPerDay` is hard-wired to 240 in the `TimeManager` constructor. -/
def ticksPerDay : Int := 240

/-- `TimeManager.resolvePeriod`.  JavaScript `%` is the truncating remainder
(`Int.tmod`); the source normalises it into `[0, ticksPerDay)` before the
range comparisons. -/
def resolvePeriod (tick : Int) : TimeOfDay :=
  let periodLength := ticksPerDay / 4
  let normalized := (Int.tmod tick ticksPerDay + ticksPerDay).tmod ticksPerDay
  if normalized < periodLength then .Dawn
  else if normalized < periodLength * 2 then .Day
  else if normalized < periodLength * 3 then .Dusk
  else .Night

/-- Mutable state of a `TimeManager`.  `tickIntervalMs` is fixed after
construction but carried here because `advance` reads it. -/
structure TimeState where
  tick : Int
  timeOfDay : TimeOfDay
  speedMultiplier : ℚ
  tickIntervalMs : ℚ
  lastUpdatedAt : ℚ
  deriving DecidableEq

/-- `TimeManager.applyTickAdvance`: adds the delta (ignoring non-positive
deltas), recomputes the phase, and returns the list of phase notifications
delivered to the registered listeners. -/
def applyTickAdvance (s : TimeState) (delta : Int) : TimeState × List TimeOfDay :=
  if delta ≤ 0 then (s, [])
  else
    let prevPeriod := s.timeOfDay
    let tick2 := s.tick + delta
    let tod2 := resolvePeriod tick2
    ({ s with tick := tick2, timeOfDay := tod2 },
      if tod2 ≠ prevPeriod then [tod2] else [])

/-- `TimeManager.advance`; `now` is the `Date.now()` reading.  A numeric
`forceTicks` argument is applied directly as a tick count; otherwise the
elapsed real time is converted into whole ticks with the fractional
remainder carried in `lastUpdatedAt`. -/
def advance (s : TimeState) (now : ℚ) (forceTicks : Option Int) :
    TimeState × List TimeOfDay :=
  match forceTicks with
  | some ticks => applyTickAdvance { s with lastUpdatedAt := now } ticks
  | none =>
    let elapsedMs := now - s.lastUpdatedAt
    if elapsedMs ≤ 0 then (s, [])
    else
      let scaledElapsed := elapsedMs * s.speedMultiplier
      let ticksToAdvance : Int := ⌊scaledElapsed / s.tickIntervalMs⌋
      if ticksToAdvance ≤ 0 then (s, [])
      else
        let leftoverScaled := scaledElapsed - ticksToAdvance * s.tickIntervalMs
        let leftoverReal := leftoverScaled / s.speedMultiplier
        applyTickAdvance { s with lastUpdatedAt := now - leftoverReal } ticksToAdvance

/-- `advance` with no `forceTicks`, state component only (the C3 view). -/
def advanceAuto (s : TimeState) (now : ℚ) : TimeState :=
  (advance s now none).1

/-- Persisted clock snapshot (`GameTimeSnapshot`); `lastUpdatedAt` is the
already-parsed timestamp. -/
structure GameTimeSnapshot where
  tick : Int
  timeOfDay : TimeOfDay
  speedMultiplier : ℚ
  tickIntervalMs : ℚ
  lastUpdatedAt : ℚ
  deriving DecidableEq

/-- `TimeManager.restore`: re-seeds tick, phase, speed and `lastUpdatedAt`
from the snapshot (`tickIntervalMs` stays as constructed), then calls
`applyTickAdvance 0`. -/
def restore (s : TimeState) (snap : GameTimeSnapshot) :
    TimeState × List TimeOfDay :=
  applyTickAdvance
    { s with tick := snap.tick, timeOfDay := snap.timeOfDay,
             speedMultiplier := snap.speedMultiplier,
             lastUpdatedAt := snap.lastUpdatedAt } 0

/-- The clock call performed by each `Game.update` loop iteration: the loop
computes `deltaTime = now - lastUpdateTime` in milliseconds and passes it to
`TimeManager.advance`, whose numeric argument is the `forceTicks` tick
count. -/
def gameUpdateClockAdvance (s : TimeState) (now : ℚ) (deltaTime : Int) :
    TimeState × List TimeOfDay :=
  advance s now (some deltaTime)

/-- Fresh default clock: tick 0, dawn, speed 1, 1000 ms per tick. -/
def exClockDefault : TimeState := ⟨0, .Dawn, 1, 1000, 0⟩

/-- Snapshot at tick 100 whose stored phase matches `resolvePeriod 100`. -/
def exSnap100 : GameTimeSnapshot := ⟨100, .Day, 1, 1000, 0⟩

/-- Snapshot at tick 500 whose stored phase does not match
`resolvePeriod 500` (which is dawn). -/
def exSnap500 : GameTimeSnapshot := ⟨500, .Night, 2, 1000, 0⟩

/-- Clock used by the C3 witness: speed 1, 2 ms per tick. -/
def exClockHalf : TimeState := ⟨0, .Dawn, 1, 2, 0⟩

/-- Weather kinds (the `Weather` enum / the five `WeatherType` values keyed
by the transition table). -/
inductive WeatherType
  | clear | rain | storm | snow | fog
  deriving DecidableEq, Repr

/-- The `WEATHER_TRANSITIONS` table of `server/Game/World/utils.ts`
(per-entry probabilities; the selection loop accumulates them). -/
def WEATHER_TRANSITIONS : WeatherType → List (WeatherType × ℚ)
  | .clear =>
    [(.clear, 0.6), (.rain, 0.2), (.fog, 0.1), (.storm, 0.05), (.snow, 0.05)]
  | .rain => [(.rain, 0.5), (.clear, 0.3), (.storm, 0.15), (.fog, 0.05)]
  | .storm => [(.storm, 0.4), (.rain, 0.4), (.clear, 0.2)]
  | .snow => [(.snow, 0.5), (.clear, 0.3), (.fog, 0.2)]
  | .fog => [(.fog, 0.5), (.clear, 0.3), (.rain, 0.2)]

/-- The accumulation loop of `getNextWeather`: `sum` starts at 0, each entry
adds its probability, and an entry is selected when `roll ≤ sum`. -/
def weatherLoop (roll : ℚ) : List (WeatherType × ℚ) → ℚ → Option WeatherType
  | [], _ => none
  | (next, prob) :: rest, sum =>
    let sum2 := sum + prob
    if roll ≤ sum2 then some next else weatherLoop roll rest sum2

/-- `getNextWeather`, with the `Math.random()` draw passed in as `roll`.
The `?? WEATHER_TRANSITIONS.clear` lookup fallback of the source is
unreachable here because the modelled weather type is the closed enum. -/
def getNextWeather (current : WeatherType) (roll : ℚ) : WeatherType :=
  let transitions := WEATHER_TRANSITIONS current
  match weatherLoop roll transitions 0 with
  | some w => w
  | none =>
    match transitions.getLast? with
    | some lastTransition => lastTransition.1
    | none => .clear

/-- Cumulative probability of the first `i + 1` entries of a transition
list. -/
def cumulativeProb (ts : List (WeatherType × ℚ)) (i : Nat) : ℚ :=
  ((ts.take (i + 1)).map Prod.snd).sum

/-- The claim's selection rule, stated in its own words for the refinement
comparison: the first transition-table entry whose cumulative probability is
≥ the draw; when no entry matches, the last entry of the current weather's
transition list. -/
def specNextWeather (current : WeatherType) (roll : ℚ) : WeatherType :=
  let ts := WEATHER_TRANSITIONS current
  match (List.range ts.length).find?
      (fun i => decide (roll ≤ cumulativeProb ts i)) with
  | some i => (ts.getD i (.clear, 0)).1
  | none =>
    match ts.getLast? with
    | some lastTransition => lastTransition.1
    | none => .clear

/-- Action kinds (`ActionType` enum). -/
inductive ActionType
  | MOVE | INTERACT | ATTACK | USE_ITEM | SPEAK | IDLE
  deriving DecidableEq, Repr

/-- Action priorities (`ActionPriority` enum); lower value runs sooner. -/
inductive ActionPriority
  | CRITICAL | HIGH | NORMAL | LOW
  deriving DecidableEq, Repr

/-- The numeric value each priority carries in the enum declaration. -/
def ActionPriority.val : ActionPriority → Nat
  | .CRITICAL => 0
  | .HIGH => 1
  | .NORMAL => 2
  | .LOW => 3

/-- An agent action (`AgentAction` interface); the `target` payload and the
`execute` closure are external inputs and omitted. -/
structure AgentAction where
  id : String
  agentId : String
  type : ActionType
  priority : ActionPriority
  timestamp : Int
  cancellable : Bool
  timeout : Option Int := none
  deriving DecidableEq, Repr

/-- `AgentActionQueue.insertByPriority`: insert before the first queued
entry whose priority value is strictly greater than the new action's. -/
def insertByPriority : List AgentAction → AgentAction → List AgentAction
  | [], action => [action]
  | item :: rest, action =>
    if item.priority.val > action.priority.val then action :: item :: rest
    else item :: insertByPriority rest action

/-- The timeout check of `executeNextAction` (JS truthiness of
`action.timeout` means a declared, non-zero timeout). -/
def expired (a : AgentAction) (now : Int) : Bool :=
  match a.timeout with
  | none => false
  | some tm => decide (tm ≠ 0) && decide (now - a.timestamp > tm)

/-- One agent's slot in `AgentActionQueue`: pending queue, executing action,
the per-agent lock of `processQueue`, and — as specification ghost state —
the ids of actions whose execution has started, in order. -/
structure AgentQueueState where
  queue : List AgentAction
  executing : Option AgentAction
  locked : Bool
  startedOrder : List String
  deriving DecidableEq, Repr

/-- Head of the `executeNextAction` while-loop: shift and skip expired
actions, returning the first live action and the rest of the queue. -/
def startNextAux (now : Int) :
    List AgentAction → Option (AgentAction × List AgentAction)
  | [] => none
  | a :: rest =>
    if expired a now then startNextAux now rest else some (a, rest)

/-- Start the next queued action: its `execute()` is awaited, so the loop
returns with that action in flight; an exhausted queue clears `executing`
and releases the lock. -/
def startNext (s : AgentQueueState) (now : Int) : AgentQueueState :=
  match startNextAux now s.queue with
  | none => { s with queue := [], executing := none, locked := false }
  | some (a, rest) =>
    { s with queue := rest, executing := some a,
             startedOrder := s.startedOrder ++ [a.id] }

/-- `AgentActionQueue.enqueue` for one agent: reject on a full queue (100),
insert by priority, then `processQueue` — which returns at once when the
agent's lock is held and otherwise takes the lock and synchronously starts
the next action. -/
def enqueue (s : AgentQueueState) (a : AgentAction) (now : Int) :
    Bool × AgentQueueState :=
  if 100 ≤ s.queue.length then (false, s)
  else
    let s1 := { s with queue := insertByPriority s.queue a }
    if s1.locked then (true, s1)
    else (true, startNext { s1 with locked := true } now)

/-- Resolution of the executing action's `execute()` promise: the while-loop
clears `executing` and drains the next queued action. -/
def completeCurrent (s : AgentQueueState) (now : Int) : AgentQueueState :=
  match s.executing with
  | none => s
  | some _ => startNext { s with executing := none } now

/-- Concrete actions used by the C9 scenarios. -/
def lowAction : AgentAction := ⟨"low", "agent1", .IDLE, .LOW, 0, true, none⟩

def criticalAction : AgentAction :=
  ⟨"critical", "agent1", .MOVE, .CRITICAL, 0, true, none⟩

def normalAction : AgentAction :=
  ⟨"normal", "agent1", .MOVE, .NORMAL, 0, true, none⟩

def busyAction : AgentAction := ⟨"busy", "agent1", .MOVE, .NORMAL, 0, false, none⟩

/-- Idle agent slot: empty queue, nothing executing, lock free. -/
def idleQueueState : AgentQueueState := ⟨[], none, false, []⟩

/-- Agent slot with an action still executing (lock held). -/
def busyQueueState : AgentQueueState := ⟨[], some busyAction, true, ["busy"]⟩

/-- Feeding the three scenario actions in the order LOW, CRITICAL, NORMAL. -/
def feedThree (s : AgentQueueState) : AgentQueueState :=
  (enqueue (enqueue (enqueue s lowAction 0).2 criticalAction 0).2
    normalAction 0).2

/-- A scheduled JavaScript microtask of the per-coordinate interaction
serializer (`InteractionManager.handleInteractionAsync`), for one coordinate
key: `runReq i` resumes request `i` after the promise it awaited settled —
it then runs its handler, publishes its own promise in the map and schedules
its `finally`; `cleanup i` is the `finally` block of request `i`, which
deletes the map entry when it still holds request `i`'s promise. -/
inductive MicroTask
  | runReq (i : Nat)
  | cleanup (i : Nat)
  deriving DecidableEq, Repr

/-- State of `handleInteractionAsync` for one coordinate key: the
`interactionQueues` entry (which request's promise is stored, if any), the
FIFO microtask queue of the JS event loop, and — as specification ghost
state — the order in which handlers have run.  `processInteraction` contains
no `await`, so a handler runs synchronously (atomically) and any promise
found in the map is already settled; the await on it therefore schedules the
continuation immediately. -/
structure CoordState where
  entry : Option Nat
  microtasks : List MicroTask
  handlersRun : List Nat
  deriving DecidableEq, Repr

def initCoordState : CoordState := ⟨none, [], []⟩

/-- Arrival of request `i` (a call of `handleInteractionAsync` from a
macrotask): with no stored promise the handler runs synchronously, the map
entry is set to `i` and the `finally` continuation is scheduled; otherwise
the request awaits the (already settled) stored promise, scheduling its
resumption — the map is NOT updated until that resumption runs. -/
def arrive (s : CoordState) (i : Nat) : CoordState :=
  match s.entry with
  | none =>
    { entry := some i, microtasks := s.microtasks ++ [.cleanup i],
      handlersRun := s.handlersRun ++ [i] }
  | some _ => { s with microtasks := s.microtasks ++ [.runReq i] }

/-- Run the first queued microtask. -/
def stepMicro (s : CoordState) : CoordState :=
  match s.microtasks with
  | [] => s
  | .runReq i :: rest =>
    { entry := some i, microtasks := rest ++ [.cleanup i],
      handlersRun := s.handlersRun ++ [i] }
  | .cleanup i :: rest =>
    { s with microtasks := rest,
             entry := if s.entry = some i then none else s.entry }

/-- Ids of the pending resumptions of a microtask queue, in FIFO order. -/
def runIds : List MicroTask → List Nat
  | [] => []
  | .runReq i :: rest => i :: runIds rest
  | .cleanup _ :: rest => runIds rest

/-- Each microtask step strictly decreases this measure until the queue is
empty. -/
def drainMeasure (s : CoordState) : Nat :=
  s.microtasks.length + (runIds s.microtasks).length

/-- Fuel-indexed drain of the microtask queue. -/
def drainFuel : Nat → CoordState → CoordState
  | 0, s => s
  | n + 1, s =>
    match s.microtasks with
    | [] => s
    | _ :: _ => drainFuel n (stepMicro s)

/-- The JS event loop runs every pending microtask to completion before the
next macrotask. -/
def drain (s : CoordState) : CoordState := drainFuel (drainMeasure s) s

/-- One macrotask round: a burst of synchronous arrivals followed by a full
microtask drain. -/
def round (s : CoordState) (burst : List Nat) : CoordState :=
  drain (burst.foldl arrive s)

/-- The map entry, when present, always has its `finally` cleanup pending. -/
def EntryInv (s : CoordState) : Prop :=
  ∀ i, s.entry = some i → MicroTask.cleanup i ∈ s.microtasks

lemma isInBounds_iff {w : WorldManager} {pos : Position2D} :
    w.isInBounds pos = true ↔
      0 ≤ pos.x ∧ pos.x < w.worldMap.width ∧ 0 ≤ pos.y ∧ pos.y < w.worldMap.height := by
  simp [WorldManager.isInBounds, and_assoc]

/-- `getTile` on a manager whose stored row and cell are known. -/
lemma getTile_of_fields {w2 : WorldManager} {pos : Position2D} {row2 : List Tile}
    {nt : Tile} (hb : w2.isInBounds pos = true)
    (hrow2 : listGet? w2.worldMap.tiles pos.y = some row2)
    (hcell2 : listGet? row2 pos.x = some nt) :
    w2.getTile pos = nt := by
  simp [WorldManager.getTile, hb, hrow2, hcell2]

/-- On a well-formed map every in-bounds coordinate has a stored row and cell,
and `getTile` returns that cell. -/
lemma cell_spec {w : WorldManager} {pos : Position2D}
    (hwf : w.WellFormed) (hin : w.isInBounds pos = true) :
    ∃ row t, listGet? w.worldMap.tiles pos.y = some row ∧
      listGet? row pos.x = some t ∧ row.length = w.worldMap.width.toNat ∧
      w.getTile pos = t := by
  obtain ⟨hx0, hxw, hy0, hyh⟩ := isInBounds_iff.mp hin
  obtain ⟨hw0, hh0, hlen, hrows⟩ := hwf
  have hylt : pos.y.toNat < w.worldMap.tiles.length := by omega
  have hrow : listGet? w.worldMap.tiles pos.y
      = some (w.worldMap.tiles.get ⟨pos.y.toNat, hylt⟩) := by
    simp [listGet?, hy0, List.get?_eq_get hylt]
  have hrlen : (w.worldMap.tiles.get ⟨pos.y.toNat, hylt⟩).length
      = w.worldMap.width.toNat :=
    hrows _ (List.get_mem _ _ _)
  have hxlt : pos.x.toNat < (w.worldMap.tiles.get ⟨pos.y.toNat, hylt⟩).length := by
    omega
  have hcell : listGet? (w.worldMap.tiles.get ⟨pos.y.toNat, hylt⟩) pos.x
      = some ((w.worldMap.tiles.get ⟨pos.y.toNat, hylt⟩).get ⟨pos.x.toNat, hxlt⟩) := by
    simp [listGet?, hx0, List.get?_eq_get hxlt]
  exact ⟨_, _, hrow, hcell, hrlen, getTile_of_fields hin hrow hcell⟩

/-- Characterisation of an accepted `setTile` write (version check absent or
matching) on a well-formed map: it reports success, stores the new tile with
version `currentVersion + 1`, adds the coordinate to the dirty set, keeps the
extents, and preserves well-formedness. -/
lemma setTile_success {w : WorldManager} {pos : Position2D} (tile : Tile)
    (ev : Option Nat) (hwf : w.WellFormed) (hin : w.isInBounds pos = true)
    (hver : ev = none ∨ ev = some (w.getTileVersion pos)) :
    (w.setTile pos tile ev).1 = true ∧
      (w.setTile pos tile ev).2.getTile pos
        = { tile with version := some (w.getTileVersion pos + 1) } ∧
      (w.setTile pos tile ev).2.dirtyTiles = insert pos w.dirtyTiles ∧
      (w.setTile pos tile ev).2.worldMap.width = w.worldMap.width ∧
      (w.setTile pos tile ev).2.worldMap.height = w.worldMap.height ∧
      (w.setTile pos tile ev).2.WellFormed := by
  obtain ⟨row, t, hrow, hcell, hrlen, hget⟩ := cell_spec hwf hin
  obtain ⟨hx0, hxw, hy0, hyh⟩ := isInBounds_iff.mp hin
  obtain ⟨hw0, hh0, hlen, hrows⟩ := hwf
  have hv : t.version.getD 0 = w.getTileVersion pos := by
    simp [WorldManager.getTileVersion, hget]
  have hylt : pos.y.toNat < w.worldMap.tiles.length := by omega
  have hxlt : pos.x.toNat < row.length := by omega
  have hstep : w.setTile pos tile ev
      = (true,
          ⟨⟨w.worldMap.width, w.worldMap.height,
            w.worldMap.tiles.set pos.y.toNat (row.set pos.x.toNat
              { tile with version := some (w.getTileVersion pos + 1) })⟩,
            insert pos w.dirtyTiles⟩) := by
    rcases hver with h | h <;> subst h <;>
      simp [WorldManager.setTile, hin, hrow, hcell, hv]
  have hW : (w.setTile pos tile ev).2.worldMap.width = w.worldMap.width := by
    rw [hstep]
  have hH : (w.setTile pos tile ev).2.worldMap.height = w.worldMap.height := by
    rw [hstep]
  have htiles : (w.setTile pos tile ev).2.worldMap.tiles
      = w.worldMap.tiles.set pos.y.toNat (row.set pos.x.toNat
          { tile with version := some (w.getTileVersion pos + 1) }) := by
    rw [hstep]
  have hb2 : (w.setTile pos tile ev).2.isInBounds pos = true := by
    rw [isInBounds_iff, hW, hH]; exact ⟨hx0, hxw, hy0, hyh⟩
  have hrow2 : listGet? (w.setTile pos tile ev).2.worldMap.tiles pos.y
      = some (row.set pos.x.toNat
          { tile with version := some (w.getTileVersion pos + 1) }) := by
    rw [htiles]
    simp [listGet?, hy0, List.getElem?_set_eq_of_lt _ hylt]
  have hcell2 : listGet? (row.set pos.x.toNat
      { tile with version := some (w.getTileVersion pos + 1) }) pos.x
      = some { tile with version := some (w.getTileVersion pos + 1) } := by
    simp [listGet?, hx0, List.getElem?_set_eq_of_lt _ hxlt]
  refine ⟨by rw [hstep], getTile_of_fields hb2 hrow2 hcell2, by rw [hstep], hW, hH,
    ?_, ?_, ?_, ?_⟩
  · rw [hW]; exact hw0
  · rw [hH]; exact hh0
  · rw [htiles, hH]; simp [List.length_set, hlen]
  · intro row2 hmem
    rw [htiles] at hmem
    rw [hW]
    rcases List.mem_or_eq_of_mem_set hmem with h | h
    · exact hrows _ h
    · subst h; simp [List.length_set, hrlen]

/-- A supplied `expectedVersion` different from the stored version makes
`setTile` fail and return the manager unchanged. -/
lemma setTile_conflict {w : WorldManager} {pos : Position2D} (tile : Tile)
    {ev : Nat} (hwf : w.WellFormed) (hin : w.isInBounds pos = true)
    (hne : ev ≠ w.getTileVersion pos) :
    w.setTile pos tile (some ev) = (false, w) := by
  obtain ⟨row, t, hrow, hcell, hrlen, hget⟩ := cell_spec hwf hin
  have hv : t.version.getD 0 = w.getTileVersion pos := by
    simp [WorldManager.getTileVersion, hget]
  simp [WorldManager.setTile, hin, hrow, hcell, hv, Ne.symm hne]

/-- The version stored by an accepted write, read back through
`getTileVersion`, is the old version plus one. -/
lemma getTileVersion_after_success {w : WorldManager} {pos : Position2D}
    (tile : Tile) (ev : Option Nat) (hwf : w.WellFormed)
    (hin : w.isInBounds pos = true)
    (hver : ev = none ∨ ev = some (w.getTileVersion pos)) :
    (w.setTile pos tile ev).2.getTileVersion pos = w.getTileVersion pos + 1 := by
  obtain ⟨-, hget, -, -, -, -⟩ := setTile_success tile ev hwf hin hver
  simp [WorldManager.getTileVersion, hget]

/-- An accepted write keeps the target in bounds. -/
lemma isInBounds_after_success {w : WorldManager} {pos : Position2D}
    (tile : Tile) (ev : Option Nat) (hwf : w.WellFormed)
    (hin : w.isInBounds pos = true)
    (hver : ev = none ∨ ev = some (w.getTileVersion pos)) :
    (w.setTile pos tile ev).2.isInBounds pos = true := by
  obtain ⟨-, -, -, hW, hH, -⟩ := setTile_success tile ev hwf hin hver
  rw [isInBounds_iff, hW, hH]
  exact isInBounds_iff.mp hin

/-- C1: for every in-bounds coordinate of a well-formed world, `setTile` with
`expectedVersion` equal to the stored version succeeds, bumps the stored
version to `expectedVersion + 1` and marks the coordinate dirty; `setTile`
with any other `expectedVersion` returns `false` (no exception) and leaves the
manager — tile and version included — unchanged.  In particular, from version
3 a write with `expectedVersion = 3` succeeds and yields version 4, and a
second write with `expectedVersion = 3` fails leaving version 4. -/
theorem setTile_expected_version_contract (w : WorldManager) (pos : Position2D)
    (tile tile2 : Tile) (hwf : w.WellFormed) (hin : w.isInBounds pos = true) :
    ((w.setTile pos tile (some (w.getTileVersion pos))).1 = true ∧
      (w.setTile pos tile (some (w.getTileVersion pos))).2.getTileVersion pos
        = w.getTileVersion pos + 1 ∧
      pos ∈ (w.setTile pos tile (some (w.getTileVersion pos))).2.dirtyTiles) ∧
    (∀ ev : Nat, ev ≠ w.getTileVersion pos →
      w.setTile pos tile (some ev) = (false, w)) ∧
    (w.getTileVersion pos = 3 →
      (w.setTile pos tile (some 3)).1 = true ∧
      (w.setTile pos tile (some 3)).2.getTileVersion pos = 4 ∧
      (w.setTile pos tile (some 3)).2.setTile pos tile2 (some 3)
        = (false, (w.setTile pos tile (some 3)).2)) := by
  refine ⟨⟨?_, ?_, ?_⟩, ?_, ?_⟩
  · exact (setTile_success tile _ hwf hin (Or.inr rfl)).1
  · exact getTileVersion_after_success tile _ hwf hin (Or.inr rfl)
  · obtain ⟨-, -, hdirty, -⟩ := setTile_success tile (some (w.getTileVersion pos)) hwf hin (Or.inr rfl)
    rw [hdirty]
    exact Finset.mem_insert_self pos _
  · intro ev hne
    exact setTile_conflict tile hwf hin hne
  · intro h3
    have hver : (some 3 : Option Nat) = some (w.getTileVersion pos) := by rw [h3]
    have hsucc := setTile_success tile (some 3) hwf hin (Or.inr hver)
    have hv4 : (w.setTile pos tile (some 3)).2.getTileVersion pos = 4 := by
      rw [getTileVersion_after_success tile (some 3) hwf hin (Or.inr hver), h3]
    refine ⟨hsucc.1, hv4, ?_⟩
    refine setTile_conflict tile2 hsucc.2.2.2.2.2 ?_ ?_
    · exact isInBounds_after_success tile (some 3) hwf hin (Or.inr hver)
    · rw [hv4]; omega

/-- C1 witness: the contract applied to the concrete 1×1 world whose single
tile is at version 3. -/
theorem setTile_expected_version_contract_witness :
    exWorld3.WellFormed ∧ exWorld3.isInBounds ⟨0, 0⟩ = true ∧
      ((exWorld3.setTile ⟨0, 0⟩ exTileA (some 3)).1 = true ∧
        (exWorld3.setTile ⟨0, 0⟩ exTileA (some 3)).2.getTileVersion ⟨0, 0⟩ = 4 ∧
        (exWorld3.setTile ⟨0, 0⟩ exTileA (some 3)).2.setTile ⟨0, 0⟩ exTileB (some 3)
          = (false, (exWorld3.setTile ⟨0, 0⟩ exTileA (some 3)).2)) :=
  ⟨by decide, by decide,
    (setTile_expected_version_contract exWorld3 ⟨0, 0⟩ exTileA exTileB
      (by decide) (by decide)).2.2 (by decide)⟩

/-- C10: a `setTile` call that omits `expectedVersion` is always accepted on
an in-bounds coordinate of a well-formed world, whatever the stored version:
the version check is skipped, the stored version still increments by exactly
1, and the coordinate is marked dirty. -/
theorem setTile_unversioned_always_accepted (w : WorldManager)
    (pos : Position2D) (tile : Tile) (hwf : w.WellFormed)
    (hin : w.isInBounds pos = true) :
    (w.setTile pos tile none).1 = true ∧
      (w.setTile pos tile none).2.getTileVersion pos = w.getTileVersion pos + 1 ∧
      pos ∈ (w.setTile pos tile none).2.dirtyTiles := by
  obtain ⟨hok, -, hdirty, -⟩ := setTile_success tile none hwf hin (Or.inl rfl)
  refine ⟨hok, getTileVersion_after_success tile none hwf hin (Or.inl rfl), ?_⟩
  rw [hdirty]
  exact Finset.mem_insert_self pos _

/-- A non-final harvest call (durability still above 1): success without
completion, and the stored tile keeps its type with durability decremented by
exactly 1. -/
lemma harvest_decrement {w : WorldManager} {pos : Position2D} {st : TileState}
    {d : Int} (now : String) (hwf : w.WellFormed)
    (hin : w.isInBounds pos = true) (hharv : w.isHarvestable pos = true)
    (hstate : (w.getTile pos).state = some st) (hdur : st.durability = some d)
    (hd : 1 < d) :
    (w.harvest pos now).1 = ⟨true, false, none⟩ ∧
      (w.harvest pos now).2.getTile pos
        = { type := (w.getTile pos).type,
            state := some { st with durability := some (d - 1),
                                    lastInteractedAt := some now },
            version := some (w.getTileVersion pos + 1) } ∧
      (w.harvest pos now).2.WellFormed ∧
      (w.harvest pos now).2.isInBounds pos = true := by
  have hversion : (w.getTile pos).version.getD 0 = w.getTileVersion pos := rfl
  have hsucc := setTile_success
      { type := (w.getTile pos).type,
        state := some { st with durability := some (d - 1),
                                lastInteractedAt := some now } }
      (some (w.getTileVersion pos)) hwf hin (Or.inr rfl)
  have hne : ¬ (d - 1 ≤ 0) := by omega
  have hstep : w.harvest pos now
      = (⟨true, false, none⟩,
          (w.setTile pos
            { type := (w.getTile pos).type,
              state := some { st with durability := some (d - 1),
                                      lastInteractedAt := some now } }
            (some (w.getTileVersion pos))).2) := by
    unfold WorldManager.harvest
    rw [hharv]
    simp only [Bool.not_true, Bool.false_eq_true, if_false, hstate, hdur]
    rw [hversion]
    simp only [if_neg hne, hsucc.1]
    rfl
  rw [hstep]
  exact ⟨rfl, hsucc.2.1, hsucc.2.2.2.2.2,
    isInBounds_after_success _ _ hwf hin (Or.inr rfl)⟩

/-- The final harvest call (durability 1 or below): success with completion,
the drop table of the tile type is returned, and the tile is replaced by base
`GRASS` in the same version-checked write. -/
lemma harvest_final {w : WorldManager} {pos : Position2D} {st : TileState}
    {d : Int} (now : String) (hwf : w.WellFormed)
    (hin : w.isInBounds pos = true) (hharv : w.isHarvestable pos = true)
    (hstate : (w.getTile pos).state = some st) (hdur : st.durability = some d)
    (hd : d ≤ 1) :
    (w.harvest pos now).1
        = ⟨true, true, some (getDrops (w.getTile pos).type)⟩ ∧
      (w.harvest pos now).2.getTile pos
        = { type := .GRASS, version := some (w.getTileVersion pos + 1) } ∧
      (w.harvest pos now).2.WellFormed ∧
      (w.harvest pos now).2.isInBounds pos = true := by
  have hversion : (w.getTile pos).version.getD 0 = w.getTileVersion pos := rfl
  have hsucc := setTile_success { type := .GRASS }
      (some (w.getTileVersion pos)) hwf hin (Or.inr rfl)
  have hle : d - 1 ≤ 0 := by omega
  have hstep : w.harvest pos now
      = (⟨true, true, some (getDrops (w.getTile pos).type)⟩,
          (w.setTile pos { type := .GRASS } (some (w.getTileVersion pos))).2) := by
    unfold WorldManager.harvest
    rw [hharv]
    simp only [Bool.not_true, Bool.false_eq_true, if_false, hstate, hdur]
    rw [hversion]
    simp only [if_pos hle, hsucc.1]
    rfl
  rw [hstep]
  exact ⟨rfl, hsucc.2.1, hsucc.2.2.2.2.2,
    isInBounds_after_success _ _ hwf hin (Or.inr rfl)⟩

/-- C6: every successful harvest decrements durability by exactly 1; the call
that brings durability to zero replaces the tile with `GRASS` in the same
version-checked write and returns the drop table; a `TREE` at durability 3
takes exactly 3 successful calls, the first two non-final, the third final
with a 3-unit wood drop and the tile reverted to grass. -/
theorem harvest_durability_countdown (w : WorldManager) (pos : Position2D)
    (st : TileState) (d : Int) (now1 now2 now3 : String)
    (hwf : w.WellFormed) (hin : w.isInBounds pos = true)
    (hharv : w.isHarvestable pos = true)
    (hstate : (w.getTile pos).state = some st)
    (hdur : st.durability = some d) :
    (1 < d →
      (w.harvest pos now1).1 = ⟨true, false, none⟩ ∧
        ((w.harvest pos now1).2.getTile pos).type = (w.getTile pos).type ∧
        ((w.harvest pos now1).2.getTile pos).state
          = some { st with durability := some (d - 1),
                           lastInteractedAt := some now1 }) ∧
    (d ≤ 1 →
      (w.harvest pos now1).1
          = ⟨true, true, some (getDrops (w.getTile pos).type)⟩ ∧
        ((w.harvest pos now1).2.getTile pos).type = .GRASS) ∧
    ((w.getTile pos).type = .TREE → d = 3 →
      (w.harvest pos now1).1 = ⟨true, false, none⟩ ∧
        ((w.harvest pos now1).2.harvest pos now2).1 = ⟨true, false, none⟩ ∧
        (((w.harvest pos now1).2.harvest pos now2).2.harvest pos now3).1
          = ⟨true, true, some ["wood", "wood", "wood"]⟩ ∧
        ((((w.harvest pos now1).2.harvest pos now2).2.harvest pos now3).2.getTile
            pos).type = .GRASS) := by
  refine ⟨?_, ?_, ?_⟩
  · intro hd
    obtain ⟨hres, hget, -, -⟩ := harvest_decrement now1 hwf hin hharv hstate hdur hd
    exact ⟨hres, by rw [hget], by rw [hget]⟩
  · intro hd
    obtain ⟨hres, hget, -, -⟩ := harvest_final now1 hwf hin hharv hstate hdur hd
    exact ⟨hres, by rw [hget]⟩
  · intro htree hd3
    subst hd3
    obtain ⟨hres1, hget1, hwf1, hin1⟩ :=
      harvest_decrement now1 hwf hin hharv hstate hdur (by omega)
    have hharv1 : (w.harvest pos now1).2.isHarvestable pos = true := by
      simp [WorldManager.isHarvestable, hget1, htree, initTileConfigs]
    have hstate1 : ((w.harvest pos now1).2.getTile pos).state
        = some { st with durability := some 2, lastInteractedAt := some now1 } := by
      rw [hget1]; norm_num
    obtain ⟨hres2, hget2, hwf2, hin2⟩ :=
      harvest_decrement now2 hwf1 hin1 hharv1 hstate1 rfl (by omega)
    have hharv2 : ((w.harvest pos now1).2.harvest pos now2).2.isHarvestable pos
        = true := by
      simp [WorldManager.isHarvestable, hget2, hget1, htree, initTileConfigs]
    have hstate2 : (((w.harvest pos now1).2.harvest pos now2).2.getTile pos).state
        = some { st with durability := some 1, lastInteractedAt := some now2 } := by
      rw [hget2]; norm_num
    obtain ⟨hres3, hget3, -, -⟩ :=
      harvest_final now3 hwf2 hin2 hharv2 hstate2 rfl (by omega)
    refine ⟨hres1, hres2, ?_, by rw [hget3]⟩
    rw [hres3]
    have : ((((w.harvest pos now1).2.harvest pos now2).2).getTile pos).type
        = .TREE := by
      rw [hget2, hget1, htree]
    rw [this]
    rfl

/-- C6 witness: the countdown applied to the concrete 1×1 tree world with
durability 3. -/
theorem harvest_durability_countdown_witness :
    (exTreeWorld.WellFormed ∧ exTreeWorld.isInBounds ⟨0, 0⟩ = true ∧
        exTreeWorld.isHarvestable ⟨0, 0⟩ = true ∧
        (exTreeWorld.getTile ⟨0, 0⟩).state = some { durability := some 3 } ∧
        (exTreeWorld.getTile ⟨0, 0⟩).type = TerrainType.TREE) ∧
      ((exTreeWorld.harvest ⟨0, 0⟩ "t1").1 = ⟨true, false, none⟩ ∧
        ((exTreeWorld.harvest ⟨0, 0⟩ "t1").2.harvest ⟨0, 0⟩ "t2").1
          = ⟨true, false, none⟩ ∧
        (((exTreeWorld.harvest ⟨0, 0⟩ "t1").2.harvest ⟨0, 0⟩ "t2").2.harvest
            ⟨0, 0⟩ "t3").1 = ⟨true, true, some ["wood", "wood", "wood"]⟩ ∧
        ((((exTreeWorld.harvest ⟨0, 0⟩ "t1").2.harvest ⟨0, 0⟩ "t2").2.harvest
            ⟨0, 0⟩ "t3").2.getTile ⟨0, 0⟩).type = TerrainType.GRASS) :=
  ⟨⟨by decide, by decide, by decide, by decide, by decide⟩,
    (harvest_durability_countdown exTreeWorld ⟨0, 0⟩ { durability := some 3 } 3
      "t1" "t2" "t3" (by decide) (by decide) (by decide) (by decide)
      (by decide)).2.2 (by decide) rfl⟩

/-- C10 witness: an unversioned write on the version-3 world is accepted and
bumps the version to 4. -/
theorem setTile_unversioned_always_accepted_witness :
    exWorld3.WellFormed ∧ exWorld3.isInBounds ⟨0, 0⟩ = true ∧
      ((exWorld3.setTile ⟨0, 0⟩ exTileA none).1 = true ∧
        (exWorld3.setTile ⟨0, 0⟩ exTileA none).2.getTileVersion ⟨0, 0⟩
          = exWorld3.getTileVersion ⟨0, 0⟩ + 1 ∧
        ⟨0, 0⟩ ∈ (exWorld3.setTile ⟨0, 0⟩ exTileA none).2.dirtyTiles) :=
  ⟨by decide, by decide,
    setTile_unversioned_always_accepted exWorld3 ⟨0, 0⟩ exTileA
      (by decide) (by decide)⟩

/-- For non-negative ticks the normalised remainder used by `resolvePeriod`
is the euclidean remainder `tick % 240`. -/
lemma resolvePeriod_eq_emod (tick : Int) (h : 0 ≤ tick) :
    resolvePeriod tick
      = (if tick % 240 < 60 then TimeOfDay.Dawn
         else if tick % 240 < 120 then TimeOfDay.Day
         else if tick % 240 < 180 then TimeOfDay.Dusk
         else TimeOfDay.Night) := by
  have hm0 : 0 ≤ tick % 240 := Int.emod_nonneg tick (by norm_num)
  have hmlt : tick % 240 < 240 := Int.emod_lt_of_pos tick (by norm_num)
  have hnorm : (Int.tmod tick 240 + 240).tmod 240 = tick % 240 := by
    rw [Int.tmod_eq_emod h (by norm_num), Int.tmod_eq_emod (by omega) (by norm_num)]
    omega
  simp only [resolvePeriod, ticksPerDay]
  simp only [hnorm]
  norm_num

/-- C7: for every non-negative tick the day-phase depends only on
`tick % ticksPerDay`, and the day splits into four equal phases of length
`ticksPerDay / 4` in the cyclic order dawn, day, dusk, night. -/
theorem dayPhase_pure_function_of_mod (tick : Int) (h : 0 ≤ tick) :
    resolvePeriod tick = resolvePeriod (tick % ticksPerDay) ∧
      (resolvePeriod tick = TimeOfDay.Dawn ↔
        0 ≤ tick % ticksPerDay ∧ tick % ticksPerDay < ticksPerDay / 4) ∧
      (resolvePeriod tick = TimeOfDay.Day ↔
        ticksPerDay / 4 ≤ tick % ticksPerDay ∧
          tick % ticksPerDay < 2 * (ticksPerDay / 4)) ∧
      (resolvePeriod tick = TimeOfDay.Dusk ↔
        2 * (ticksPerDay / 4) ≤ tick % ticksPerDay ∧
          tick % ticksPerDay < 3 * (ticksPerDay / 4)) ∧
      (resolvePeriod tick = TimeOfDay.Night ↔
        3 * (ticksPerDay / 4) ≤ tick % ticksPerDay ∧
          tick % ticksPerDay < 4 * (ticksPerDay / 4)) := by
  have hm0 : 0 ≤ tick % 240 := Int.emod_nonneg tick (by norm_num)
  have hmlt : tick % 240 < 240 := Int.emod_lt_of_pos tick (by norm_num)
  have e1 := resolvePeriod_eq_emod tick h
  have e2 := resolvePeriod_eq_emod (tick % ticksPerDay)
    (by simpa [ticksPerDay] using hm0)
  have hmm : (tick % ticksPerDay) % 240 = tick % 240 := by
    simp [ticksPerDay]
  rw [hmm] at e2
  simp only [ticksPerDay] at e2 ⊢
  refine ⟨by rw [e1, e2], ?_, ?_, ?_, ?_⟩ <;>
    rw [e1] <;> norm_num <;> split_ifs <;> simp_all <;> omega

/-- C7 witness: the phase characterisation applied at tick 500
(500 mod 240 = 20, dawn). -/
theorem dayPhase_pure_function_of_mod_witness :
    (0 : Int) ≤ 500 ∧
      (resolvePeriod 500 = resolvePeriod (500 % ticksPerDay) ∧
        (resolvePeriod 500 = TimeOfDay.Dawn ↔
          0 ≤ 500 % ticksPerDay ∧ (500 : Int) % ticksPerDay < ticksPerDay / 4)) :=
  ⟨by norm_num,
    (dayPhase_pure_function_of_mod 500 (by norm_num)).1,
    (dayPhase_pure_function_of_mod 500 (by norm_num)).2.1⟩

/-- C4 (code bug): `restore` copies the snapshot phase verbatim and its
`applyTickAdvance 0` call returns immediately (`delta ≤ 0` guard), so no
phase-change listener fires even when the post-restore phase differs from
the pre-restore phase, and the phase is not re-evaluated from the restored
tick: restoring the inconsistent snapshot at tick 500 keeps phase `Night`
although `resolvePeriod 500 = Dawn`. -/
theorem restore_fires_no_listeners :
    (restore exClockDefault exSnap100).2 = [] ∧
      (restore exClockDefault exSnap100).1.timeOfDay = TimeOfDay.Day ∧
      exClockDefault.timeOfDay = TimeOfDay.Dawn ∧
      TimeOfDay.Day ≠ TimeOfDay.Dawn ∧
      resolvePeriod exSnap100.tick = TimeOfDay.Day ∧
      (restore exClockDefault exSnap500).2 = [] ∧
      (restore exClockDefault exSnap500).1.timeOfDay = TimeOfDay.Night ∧
      resolvePeriod exSnap500.tick = TimeOfDay.Dawn := by
  decide

/-- C5 (code bug): one `Game.update` iteration passes the elapsed
milliseconds straight into `TimeManager.advance`, which treats a numeric
argument as a forced tick count: a 50 ms iteration at speed 1 and
1000 ms/tick advances the clock by 50 ticks, although
`floor(50 * 1 / 1000) = 0`. -/
theorem gameLoop_passes_ms_as_forceTicks :
    (gameUpdateClockAdvance exClockDefault 50 50).1.tick = 50 ∧
      ⌊(50 : ℚ) * exClockDefault.speedMultiplier / exClockDefault.tickIntervalMs⌋
        = 0 ∧
      (50 : Int) ≠ 0 := by
  refine ⟨by decide, ?_, by norm_num⟩
  norm_num [exClockDefault]

/-- `advance` without `forceTicks` keeps the speed multiplier and the tick
interval. -/
lemma advanceAuto_fields (s : TimeState) (now : ℚ) :
    (advanceAuto s now).speedMultiplier = s.speedMultiplier ∧
      (advanceAuto s now).tickIntervalMs = s.tickIntervalMs := by
  unfold advanceAuto advance applyTickAdvance
  dsimp only
  split_ifs <;> simp

/-- Single-step characterisation of `advance` (no `forceTicks`) in exact
arithmetic: the tick grows by the floor of the scaled elapsed time over the
tick interval, and `lastUpdatedAt` is moved so that exactly the fractional
remainder of that quotient is still pending. -/
lemma advanceAuto_spec {s : TimeState} {now : ℚ} (hm : 0 < s.speedMultiplier)
    (hI : 0 < s.tickIntervalMs) (hle : s.lastUpdatedAt ≤ now) :
    (advanceAuto s now).tick
        = s.tick
          + ⌊(now - s.lastUpdatedAt) * s.speedMultiplier / s.tickIntervalMs⌋ ∧
      (advanceAuto s now).lastUpdatedAt ≤ now ∧
      (now - (advanceAuto s now).lastUpdatedAt) * s.speedMultiplier
          / s.tickIntervalMs
        = Int.fract
            ((now - s.lastUpdatedAt) * s.speedMultiplier / s.tickIntervalMs) := by
  have hx0 : 0 ≤ (now - s.lastUpdatedAt) * s.speedMultiplier / s.tickIntervalMs :=
    div_nonneg (mul_nonneg (by linarith) hm.le) hI.le
  by_cases he : now - s.lastUpdatedAt ≤ 0
  · have heq : now - s.lastUpdatedAt = 0 := le_antisymm he (by linarith)
    have hs : advanceAuto s now = s := by
      unfold advanceAuto advance
      dsimp only
      rw [if_pos he]
    rw [hs, heq]
    refine ⟨by norm_num, hle, ?_⟩
    norm_num
  · by_cases hk :
      ⌊(now - s.lastUpdatedAt) * s.speedMultiplier / s.tickIntervalMs⌋ ≤ 0
    · have hk0 :
          ⌊(now - s.lastUpdatedAt) * s.speedMultiplier / s.tickIntervalMs⌋ = 0 :=
        le_antisymm hk (Int.floor_nonneg.mpr hx0)
      have hs : advanceAuto s now = s := by
        unfold advanceAuto advance
        dsimp only
        rw [if_neg he, if_pos hk]
      rw [hs, hk0]
      refine ⟨by norm_num, hle, ?_⟩
      rw [← Int.self_sub_floor, hk0]
      norm_num
    · have hk1 :
          (1 : Int)
            ≤ ⌊(now - s.lastUpdatedAt) * s.speedMultiplier / s.tickIntervalMs⌋ := by
        omega
      have hs : advanceAuto s now
          = { s with
              tick := s.tick
                + ⌊(now - s.lastUpdatedAt) * s.speedMultiplier / s.tickIntervalMs⌋,
              timeOfDay := resolvePeriod (s.tick
                + ⌊(now - s.lastUpdatedAt) * s.speedMultiplier / s.tickIntervalMs⌋),
              lastUpdatedAt := now
                - ((now - s.lastUpdatedAt) * s.speedMultiplier
                    - ⌊(now - s.lastUpdatedAt) * s.speedMultiplier / s.tickIntervalMs⌋
                      * s.tickIntervalMs) / s.speedMultiplier } := by
        unfold advanceAuto advance applyTickAdvance
        dsimp only
        rw [if_neg he, if_neg hk, if_neg (by omega)]
      have hfle :
          (⌊(now - s.lastUpdatedAt) * s.speedMultiplier / s.tickIntervalMs⌋ : ℚ)
              * s.tickIntervalMs
            ≤ (now - s.lastUpdatedAt) * s.speedMultiplier := by
        have h1 :
            (⌊(now - s.lastUpdatedAt) * s.speedMultiplier / s.tickIntervalMs⌋ : ℚ)
              ≤ (now - s.lastUpdatedAt) * s.speedMultiplier / s.tickIntervalMs :=
          Int.floor_le _
        calc (⌊(now - s.lastUpdatedAt) * s.speedMultiplier / s.tickIntervalMs⌋ : ℚ)
              * s.tickIntervalMs
            ≤ (now - s.lastUpdatedAt) * s.speedMultiplier / s.tickIntervalMs
              * s.tickIntervalMs := by
              exact mul_le_mul_of_nonneg_right h1 hI.le
          _ = (now - s.lastUpdatedAt) * s.speedMultiplier := by
              field_simp
      rw [hs]
      refine ⟨rfl, ?_, ?_⟩
      · have : 0 ≤ ((now - s.lastUpdatedAt) * s.speedMultiplier
            - ⌊(now - s.lastUpdatedAt) * s.speedMultiplier / s.tickIntervalMs⌋
              * s.tickIntervalMs) / s.speedMultiplier :=
          div_nonneg (by linarith) hm.le
        dsimp only
        linarith
      · dsimp only
        rw [← Int.self_sub_floor]
        field_simp
        ring
/-- Moving a single `advance` call across the floor sum: the tick already
banked plus the floor of what is still pending, measured at any later probe
time `u`, is unchanged by the call. -/
lemma advanceAuto_transport {s : TimeState} {now : ℚ}
    (hm : 0 < s.speedMultiplier) (hI : 0 < s.tickIntervalMs)
    (hle : s.lastUpdatedAt ≤ now) (u : ℚ) :
    (advanceAuto s now).tick
        + ⌊(u - (advanceAuto s now).lastUpdatedAt) * s.speedMultiplier
            / s.tickIntervalMs⌋
      = s.tick + ⌊(u - s.lastUpdatedAt) * s.speedMultiplier / s.tickIntervalMs⌋ := by
  obtain ⟨ht, hl, hf⟩ := advanceAuto_spec hm hI hle
  have hsplit :
      (u - (advanceAuto s now).lastUpdatedAt) * s.speedMultiplier / s.tickIntervalMs
        = (u - now) * s.speedMultiplier / s.tickIntervalMs
          + (now - (advanceAuto s now).lastUpdatedAt) * s.speedMultiplier
              / s.tickIntervalMs := by
    field_simp
    ring
  have hsplit2 :
      (u - s.lastUpdatedAt) * s.speedMultiplier / s.tickIntervalMs
        = (u - now) * s.speedMultiplier / s.tickIntervalMs
          + Int.fract ((now - s.lastUpdatedAt) * s.speedMultiplier / s.tickIntervalMs)
          + ⌊(now - s.lastUpdatedAt) * s.speedMultiplier / s.tickIntervalMs⌋ := by
    rw [← Int.self_sub_floor]
    field_simp
    ring
  rw [ht, hsplit, hf, hsplit2, Int.floor_add_int]
  omega

/-- Chains of inequalities can be restarted from a smaller head. -/
lemma chain_le_of_le {b a : ℚ} {l : List ℚ} (h : List.Chain (· ≤ ·) a l)
    (hba : b ≤ a) : List.Chain (· ≤ ·) b l := by
  cases l with
  | nil => exact List.Chain.nil
  | cons c cs =>
    rw [List.chain_cons] at h ⊢
    exact ⟨le_trans hba h.1, h.2⟩

/-- The head of a monotone chain is below the final element. -/
lemma chain_le_last {x t : ℚ} : ∀ {l : List ℚ},
    List.Chain (· ≤ ·) x (l ++ [t]) → x ≤ t := by
  intro l
  induction l generalizing x with
  | nil => intro h; rw [List.nil_append, List.chain_cons] at h; exact h.1
  | cons a rest ih =>
    intro h
    rw [List.cons_append, List.chain_cons] at h
    exact le_trans h.1 (ih h.2)

/-- Folding `advance` along any monotone sequence of wall-clock readings
ending at `t` yields the same tick as the closed-form floor at `t`. -/
lemma foldl_advanceAuto_tick (ts : List ℚ) (t : ℚ) :
    ∀ s : TimeState, 0 < s.speedMultiplier → 0 < s.tickIntervalMs →
      List.Chain (· ≤ ·) s.lastUpdatedAt (ts ++ [t]) →
      (List.foldl advanceAuto s (ts ++ [t])).tick
        = s.tick + ⌊(t - s.lastUpdatedAt) * s.speedMultiplier / s.tickIntervalMs⌋ := by
  induction ts with
  | nil =>
    intro s hm hI hchain
    rw [List.nil_append, List.chain_cons] at hchain
    rw [List.nil_append, List.foldl_cons, List.foldl_nil]
    exact (advanceAuto_spec hm hI hchain.1).1
  | cons a rest ih =>
    intro s hm hI hchain
    rw [List.cons_append, List.chain_cons] at hchain
    obtain ⟨hla, hchain2⟩ := hchain
    obtain ⟨hm2, hI2⟩ := advanceAuto_fields s a
    have spec := advanceAuto_spec hm hI hla
    have hchain3 : List.Chain (· ≤ ·) (advanceAuto s a).lastUpdatedAt
        (rest ++ [t]) :=
      chain_le_of_le hchain2 spec.2.1
    rw [List.cons_append, List.foldl_cons]
    rw [ih (advanceAuto s a) (by rw [hm2]; exact hm) (by rw [hI2]; exact hI)
      hchain3, hm2, hI2]
    exact advanceAuto_transport hm hI hla t

/-- C3: calling `advance` repeatedly after a monotone sequence of wall-clock
readings yields exactly the same final tick as one call at the last reading:
the fractional remainder of `floor(deltaMs * speedMultiplier /
tickIntervalMs)` is carried between calls, so sub-interval calls lose no
time. -/
theorem advance_sub_interval_no_drift (s : TimeState) (ts : List ℚ) (t : ℚ)
    (hm : 0 < s.speedMultiplier) (hI : 0 < s.tickIntervalMs)
    (hchain : List.Chain (· ≤ ·) s.lastUpdatedAt (ts ++ [t])) :
    (List.foldl advanceAuto s (ts ++ [t])).tick = (advanceAuto s t).tick := by
  rw [foldl_advanceAuto_tick ts t s hm hI hchain,
    (advanceAuto_spec hm hI (chain_le_last hchain)).1]

/-- C3 witness: two sub-interval calls at times 3 and 5 give the same tick
as one call at time 5 on the 2 ms/tick clock. -/
theorem advance_sub_interval_no_drift_witness :
    (0 < exClockHalf.speedMultiplier ∧ 0 < exClockHalf.tickIntervalMs ∧
        List.Chain (· ≤ ·) exClockHalf.lastUpdatedAt ([3] ++ [5])) ∧
      (List.foldl advanceAuto exClockHalf ([3] ++ [5])).tick
        = (advanceAuto exClockHalf 5).tick :=
  ⟨⟨by norm_num [exClockHalf], by norm_num [exClockHalf],
      List.Chain.cons (by norm_num [exClockHalf])
        (List.Chain.cons (by norm_num) List.Chain.nil)⟩,
    advance_sub_interval_no_drift exClockHalf [3] 5
      (by norm_num [exClockHalf]) (by norm_num [exClockHalf])
      (List.Chain.cons (by norm_num [exClockHalf])
        (List.Chain.cons (by norm_num) List.Chain.nil))⟩

/-- The accumulator loop of `getNextWeather` selects exactly the first index
whose cumulative probability (offset by the accumulator) is ≥ the draw. -/
lemma weatherLoop_eq_find (roll : ℚ) :
    ∀ (ts : List (WeatherType × ℚ)) (acc : ℚ),
      weatherLoop roll ts acc
        = ((List.range ts.length).find?
              (fun i => decide (roll ≤ acc + cumulativeProb ts i))).map
            (fun i => (ts.getD i (⟨.clear, 0⟩ : WeatherType × ℚ)).1) := by
  intro ts
  induction ts with
  | nil => intro acc; simp [weatherLoop]
  | cons e rest ih =>
    intro acc
    obtain ⟨w, p⟩ := e
    have hcum0 : cumulativeProb ((w, p) :: rest) 0 = p := by
      simp [cumulativeProb]
    have hcumS : ∀ i, cumulativeProb ((w, p) :: rest) (i + 1)
        = p + cumulativeProb rest i := by
      intro i
      simp [cumulativeProb]
    rw [List.length_cons, List.range_succ_eq_map, List.find?_cons]
    by_cases h0 : roll ≤ acc + p
    · have hp0 : decide (roll ≤ acc + cumulativeProb ((w, p) :: rest) 0)
          = true := by
        simp [hcum0, h0]
      rw [hp0]
      simp only [weatherLoop]
      rw [if_pos h0]
      simp
    · have hp0 : decide (roll ≤ acc + cumulativeProb ((w, p) :: rest) 0)
          = false := by
        simp [hcum0, h0]
      rw [hp0]
      simp only [weatherLoop]
      rw [if_neg h0, List.find?_map]
      have hpred : ((fun i => decide (roll ≤ acc + cumulativeProb ((w, p) :: rest) i))
            ∘ Nat.succ)
          = (fun i => decide (roll ≤ acc + p + cumulativeProb rest i)) := by
        funext i
        simp [hcumS, add_assoc]
      rw [hpred, ih (acc + p)]
      cases (List.range rest.length).find?
          (fun i => decide (roll ≤ acc + p + cumulativeProb rest i)) <;> simp

/-- C8: for every current weather and every rational draw (not just those in
[0,1]), `getNextWeather` returns the first transition-table entry whose
cumulative probability is ≥ the draw, and otherwise deterministically falls
back to the last entry of the current weather's transition list; moreover
every transition list is non-empty and its probabilities sum to exactly 1,
so the search always terminates with an enum member (in Lean, totality of
`getNextWeather` is part of its type). -/
theorem getNextWeather_selection_and_fallback (current : WeatherType) (roll : ℚ) :
    getNextWeather current roll = specNextWeather current roll ∧
      ((WEATHER_TRANSITIONS current).map Prod.snd).sum = 1 ∧
      WEATHER_TRANSITIONS current ≠ [] := by
  refine ⟨?_, ?_, ?_⟩
  · simp only [getNextWeather, specNextWeather]
    rw [weatherLoop_eq_find]
    simp only [zero_add]
    cases hfind : (List.range (WEATHER_TRANSITIONS current).length).find?
        (fun i => decide (roll ≤ cumulativeProb (WEATHER_TRANSITIONS current) i)) with
    | none => simp
    | some i => simp
  · cases current <;> norm_num [WEATHER_TRANSITIONS]
  · cases current <;> simp [WEATHER_TRANSITIONS]

/-- C9 counterexample: feeding `[LOW, CRITICAL, NORMAL]` to an idle agent
(no action executing) does not execute `CRITICAL, NORMAL, LOW`: the first
`enqueue` synchronously takes the lock and starts LOW before the others
arrive, so execution begins in the order LOW, CRITICAL, NORMAL. -/
theorem enqueue_from_idle_starts_low_first :
    (completeCurrent (completeCurrent (completeCurrent
        (feedThree idleQueueState) 0) 0) 0).startedOrder
      = ["low", "critical", "normal"] ∧
      (["low", "critical", "normal"] : List String)
        ≠ ["critical", "normal", "low"] := by
  decide

/-- C9 (amended): `insertByPriority` inserts before the first queued entry
whose priority value is strictly greater (so equal priorities keep arrival
order), and the `CRITICAL, NORMAL, LOW` drain order holds for a queue fed
`[LOW, CRITICAL, NORMAL]` while a previous action is still executing (the
pending queue orders to `[CRITICAL, NORMAL, LOW]` and drains in that order);
fed from an idle agent, the first enqueue starts LOW immediately and the
order is LOW, CRITICAL, NORMAL. -/
theorem insertByPriority_stable_and_drain_order :
    (∀ (q : List AgentAction) (a : AgentAction),
      insertByPriority q a
        = q.takeWhile (fun b => decide (b.priority.val ≤ a.priority.val))
            ++ a :: q.dropWhile (fun b => decide (b.priority.val ≤ a.priority.val))) ∧
      (feedThree busyQueueState).queue = [criticalAction, normalAction, lowAction] ∧
      (completeCurrent (completeCurrent (completeCurrent (completeCurrent
          (feedThree busyQueueState) 0) 0) 0) 0).startedOrder
        = ["busy", "critical", "normal", "low"] ∧
      (completeCurrent (completeCurrent (completeCurrent
          (feedThree idleQueueState) 0) 0) 0).startedOrder
        = ["low", "critical", "normal"] := by
  refine ⟨?_, by decide, by decide, by decide⟩
  intro q a
  induction q with
  | nil => simp [insertByPriority]
  | cons b rest ih =>
    by_cases h : b.priority.val > a.priority.val
    · have hle : ¬ (b.priority.val ≤ a.priority.val) := by omega
      simp [insertByPriority, h, List.takeWhile_cons, List.dropWhile_cons, hle]
    · have hle : b.priority.val ≤ a.priority.val := by omega
      simp [insertByPriority, h, List.takeWhile_cons, List.dropWhile_cons, hle, ih]

lemma runIds_append (l1 l2 : List MicroTask) :
    runIds (l1 ++ l2) = runIds l1 ++ runIds l2 := by
  induction l1 with
  | nil => rfl
  | cons m rest ih => cases m <;> simp [runIds, ih]

lemma runIds_map_runReq (l : List Nat) :
    runIds (l.map MicroTask.runReq) = l := by
  induction l with
  | nil => rfl
  | cons a rest ih => simp [runIds, ih]

/-- A state whose map entry is absent satisfies the cleanup invariant. -/
lemma entryInv_of_none {s : CoordState} (h : s.entry = none) : EntryInv s := by
  intro i hi
  rw [h] at hi
  cases hi

lemma stepMicro_inv {s : CoordState} (h : EntryInv s) : EntryInv (stepMicro s) := by
  obtain ⟨entry, mts, hr⟩ := s
  cases mts with
  | nil => exact h
  | cons m rest =>
    cases m with
    | runReq i =>
      intro j hj
      simp only [stepMicro] at hj ⊢
      rw [Option.some_inj] at hj
      subst hj
      simp
    | cleanup i =>
      intro j hj
      simp only [stepMicro] at hj ⊢
      by_cases he : entry = some i
      · rw [if_pos he] at hj
        cases hj
      · rw [if_neg he] at hj
        have hmem := h j hj
        simp only [List.mem_cons] at hmem
        rcases hmem with heq | hmem
        · injection heq with hji
          subst hji
          exact absurd hj he
        · exact hmem

lemma arrive_inv {s : CoordState} (h : EntryInv s) (i : Nat) :
    EntryInv (arrive s i) := by
  obtain ⟨entry, mts, hr⟩ := s
  cases entry with
  | none =>
    intro j hj
    simp only [arrive] at hj ⊢
    rw [Option.some_inj] at hj
    subst hj
    simp
  | some k =>
    intro j hj
    simp only [arrive] at hj ⊢
    exact List.mem_append_left _ (h j hj)

/-- One microtask step keeps the banked-plus-pending handler order and
decreases the drain measure by exactly one. -/
lemma stepMicro_handlers {s : CoordState} (hne : s.microtasks ≠ []) :
    (stepMicro s).handlersRun ++ runIds (stepMicro s).microtasks
        = s.handlersRun ++ runIds s.microtasks ∧
      drainMeasure (stepMicro s) + 1 = drainMeasure s := by
  obtain ⟨entry, mts, hr⟩ := s
  cases mts with
  | nil => exact absurd rfl hne
  | cons m rest =>
    cases m with
    | runReq i =>
      constructor
      · simp [stepMicro, runIds, runIds_append]
      · simp [stepMicro, drainMeasure, runIds, runIds_append]
        omega
    | cleanup i =>
      constructor
      · simp [stepMicro, runIds]
      · simp [stepMicro, drainMeasure, runIds]
        omega

/-- Draining with enough fuel empties the microtask queue, appends exactly
the pending resumptions (in FIFO order) to the handler order, and leaves the
map entry deleted. -/
lemma drainFuel_spec : ∀ (n : Nat) (s : CoordState), drainMeasure s ≤ n →
    EntryInv s →
    (drainFuel n s).microtasks = [] ∧
      (drainFuel n s).handlersRun = s.handlersRun ++ runIds s.microtasks ∧
      (drainFuel n s).entry = none := by
  intro n
  induction n with
  | zero =>
    intro s hm hinv
    have hmts : s.microtasks = [] := by
      have : s.microtasks.length = 0 := by
        unfold drainMeasure at hm
        omega
      exact List.length_eq_zero.mp this
    have hentry : s.entry = none := by
      cases hent : s.entry with
      | none => rfl
      | some i =>
        have := hinv i hent
        rw [hmts] at this
        cases this
    refine ⟨by simpa [drainFuel] using hmts, ?_, by simpa [drainFuel] using hentry⟩
    simp [drainFuel, hmts, runIds]
  | succ n ih =>
    intro s hm hinv
    cases hmts : s.microtasks with
    | nil =>
      have hentry : s.entry = none := by
        cases hent : s.entry with
        | none => rfl
        | some i =>
          have := hinv i hent
          rw [hmts] at this
          cases this
      refine ⟨by simp [drainFuel, hmts], ?_,
        by simpa [drainFuel, hmts] using hentry⟩
      simp [drainFuel, hmts, runIds]
    | cons m rest =>
      have hne : s.microtasks ≠ [] := by rw [hmts]; simp
      obtain ⟨hruns, hmeas⟩ := stepMicro_handlers hne
      have h1 : drainFuel (n + 1) s = drainFuel n (stepMicro s) := by
        simp [drainFuel, hmts]
      rw [h1]
      obtain ⟨ha, hb, hc⟩ := ih (stepMicro s) (by omega) (stepMicro_inv hinv)
      exact ⟨ha, by rw [hb, hruns, hmts], hc⟩

lemma drain_spec {s : CoordState} (hinv : EntryInv s) :
    (drain s).microtasks = [] ∧
      (drain s).handlersRun = s.handlersRun ++ runIds s.microtasks ∧
      (drain s).entry = none :=
  drainFuel_spec (drainMeasure s) s le_rfl hinv

/-- Arrivals finding a stored promise only append their resumption to the
microtask queue: the map entry and the handler order are untouched. -/
lemma foldl_arrive_some : ∀ (bs : List Nat) (s : CoordState) (j : Nat),
    s.entry = some j →
    (bs.foldl arrive s).entry = some j ∧
      (bs.foldl arrive s).handlersRun = s.handlersRun ∧
      (bs.foldl arrive s).microtasks = s.microtasks ++ bs.map MicroTask.runReq := by
  intro bs
  induction bs with
  | nil =>
    intro s j hj
    exact ⟨hj, rfl, by simp⟩
  | cons c cs ih =>
    intro s j hj
    obtain ⟨e, m, h⟩ := s
    cases e with
    | none => cases hj
    | some k =>
      have hkj : some k = some j := hj
      rw [Option.some_inj] at hkj
      subst hkj
      rw [List.foldl_cons]
      have harr : arrive ⟨some k, m, h⟩ c = ⟨some k, m ++ [.runReq c], h⟩ := rfl
      rw [harr]
      obtain ⟨h1, h2, h3⟩ := ih ⟨some k, m ++ [.runReq c], h⟩ k rfl
      refine ⟨h1, h2, ?_⟩
      rw [h3]
      simp

/-- One macrotask round from a quiescent state (empty microtask queue, no
stored promise): the handlers of the burst run in arrival order, and the
round ends quiescent again with the map entry removed. -/
lemma round_spec {s : CoordState} (burst : List Nat) (he : s.entry = none)
    (hm : s.microtasks = []) :
    (round s burst).handlersRun = s.handlersRun ++ burst ∧
      (round s burst).entry = none ∧
      (round s burst).microtasks = [] := by
  cases burst with
  | nil =>
    have hms : drainMeasure s = 0 := by simp [drainMeasure, hm, runIds]
    unfold round drain
    rw [List.foldl_nil, hms]
    exact ⟨by simp [drainFuel], he, hm⟩
  | cons b bs =>
    have harr : arrive s b
        = ⟨some b, s.microtasks ++ [.cleanup b], s.handlersRun ++ [b]⟩ := by
      obtain ⟨e, m, h⟩ := s
      simp only at he
      subst he
      rfl
    have hsome := foldl_arrive_some bs (arrive s b) b (by rw [harr])
    obtain ⟨he2, hh2, hm2⟩ := hsome
    have hinv2 : EntryInv (bs.foldl arrive (arrive s b)) := by
      intro j hj
      rw [he2, Option.some_inj] at hj
      subst hj
      rw [hm2, harr, hm]
      simp
    unfold round
    rw [List.foldl_cons]
    obtain ⟨hd1, hd2, hd3⟩ := drain_spec hinv2
    refine ⟨?_, hd3, hd1⟩
    rw [hd2, hh2, hm2, harr, hm]
    simp [runIds_append, runIds_map_runReq, runIds]

/-- Iterating rounds from a quiescent state. -/
lemma foldl_round_spec : ∀ (bursts : List (List Nat)) (s : CoordState),
    s.entry = none → s.microtasks = [] →
    (bursts.foldl round s).handlersRun = s.handlersRun ++ bursts.flatten ∧
      (bursts.foldl round s).entry = none ∧
      (bursts.foldl round s).microtasks = [] := by
  intro bursts
  induction bursts with
  | nil =>
    intro s he hm
    exact ⟨by simp, he, hm⟩
  | cons b bs ih =>
    intro s he hm
    obtain ⟨h1, h2, h3⟩ := round_spec b he hm
    rw [List.foldl_cons]
    obtain ⟨g1, g2, g3⟩ := ih (round s b) h2 h3
    refine ⟨?_, g2, g3⟩
    rw [g1, h1]
    simp

/-- C2: in the promise-chain serializer of `handleInteractionAsync`, for one
coordinate key (different coordinates use disjoint `interactionQueues`
entries and never interact), every execution — any sequence of synchronous
arrival bursts separated by full microtask drains of the JS event loop —
runs the handlers exactly in arrival order.  Since `processInteraction`
contains no `await`, each handler runs atomically, so a later request's
handler starts only after every earlier same-coordinate request has settled
(whether it succeeded or failed) and observes the tile state it produced; no
two handlers overlap.  At quiescence the per-coordinate map entry has been
removed (`entry = none`), i.e. the entry is deleted once its last request
settles. -/
theorem interaction_handlers_serialized_in_arrival_order
    (bursts : List (List Nat)) :
    (bursts.foldl round initCoordState).handlersRun = bursts.flatten ∧
      (bursts.foldl round initCoordState).entry = none ∧
      (bursts.foldl round initCoordState).microtasks = [] := by
  have h := foldl_round_spec bursts initCoordState rfl rfl
  simpa [initCoordState] using h

end Spec2Proof
